import Mathlib

/-!
Verification of the streaming wake-word pipeline in `src/main.py` of
OriNachum/OpenWakeWord2Video.

The Python source is shallowly embedded as executable Lean definitions:

* `RollingAudioRecorder` with `process_chunk` / `write_current_buffer`
  mirrors the debug ring recorder (`src/main.py` lines 23-69); disk writes
  are recorded in a ghost log `files_written` holding, in order, the pairs
  `(current_file_index, samples passed to writeframes)`.
* `init_detector` / `init_model` mirror `WakeWordDetector.__init__` and
  `WakeWordDetector.initialize_model` model-selection logic (lines 75-89,
  132-146); Python truthiness of optional strings is `truthy`.
* `RecThreads.start_recording` mirrors `WakeWordDetector.start_recording`
  (lines 215-219) with a ghost counter of spawned worker threads.
* `runQOps` models the `queue.Queue` operations used by the program
  (`put`, `get`, and the `clear` under `audio_queue.mutex` at lines
  259-261).  Since `Queue.put` and `Queue.get` acquire the very same
  `mutex` that the clear holds, the three operations serialize; a history
  of the queue is therefore a sequence of atomic operations.
* `runSched` is a small-step semantics of the producer thread
  (`_recording_worker`, lines 203-213) and the consumer loop
  (`WakeWordDetector.run`, lines 236-270), emitting a trace of the
  observable events (frame scored, detection print, stop capture, queue
  clear, model reset, video action, restart capture).  The opaque
  openwakeword model is a parameter `predict`; a Python exception raised
  by `predict` is an `Except.error`, and — exactly as in the source,
  where the inner `try` catches only `queue.Empty` — it escapes the loop
  and ends the run.  `play_video` (lines 192-201) catches every error
  internally, so it is a total function whose action outcome is a
  recorded Boolean that the control flow never inspects.

Scores are rationals: the numeric literals of the claims are exact and
the source only compares scores with `>`.
-/

abbrev Sample := Int
abbrev Chunk := List Sample
abbrev Frame := List Sample
abbrev Label := String
abbrev Score := ℚ

/-- A prediction, as returned by `self.model.predict`: a Python dict from
model label to score, i.e. an association list in insertion order (the
configured model list order). -/
abbrev Prediction := List (Label × Score)

/-! ### RollingAudioRecorder (src/main.py lines 23-69) -/

structure RollingAudioRecorder where
  num_files : Nat
  duration_seconds : Nat
  sample_rate : Nat
  samples_per_file : Nat
  current_file_index : Nat
  audio_buffer : List Chunk
  buffer_sample_count : Nat
  /-- Ghost log of the writes performed so far: `(index written, samples)`. -/
  files_written : List (Nat × List Sample)
deriving Repr, DecidableEq

/-- `RollingAudioRecorder.__init__` (lines 28-40); the output directory and
channel/width fields play no role in the buffering logic. -/
def RollingAudioRecorder.mk_init (num_files duration_seconds sample_rate : Nat) :
    RollingAudioRecorder :=
  { num_files := num_files
    duration_seconds := duration_seconds
    sample_rate := sample_rate
    samples_per_file := sample_rate * duration_seconds
    current_file_index := 0
    audio_buffer := []
    buffer_sample_count := 0
    files_written := [] }

/-- `RollingAudioRecorder._write_current_buffer` (lines 49-69).  The wave
write itself is inside `try/except`; success or failure, the samples
handed to `writeframes` are `full_audio[:samples_per_file]` and the file
index then advances. -/
def RollingAudioRecorder.write_current_buffer (r : RollingAudioRecorder) :
    RollingAudioRecorder :=
  if r.audio_buffer = [] then r
  else
    let full_audio := r.audio_buffer.flatten
    let audio_to_write := full_audio.take r.samples_per_file
    let r1 := { r with
      files_written := r.files_written ++ [(r.current_file_index, audio_to_write)]
      current_file_index := (r.current_file_index + 1) % r.num_files }
    if r.samples_per_file < full_audio.length then
      { r1 with
        audio_buffer := [full_audio.drop r.samples_per_file]
        buffer_sample_count := (full_audio.drop r.samples_per_file).length }
    else
      { r1 with audio_buffer := [], buffer_sample_count := 0 }

/-- `RollingAudioRecorder.process_chunk` (lines 42-47). -/
def RollingAudioRecorder.process_chunk (r : RollingAudioRecorder) (audio_data : Chunk) :
    RollingAudioRecorder :=
  let r1 := { r with
    audio_buffer := r.audio_buffer ++ [audio_data]
    buffer_sample_count := r.buffer_sample_count + audio_data.length }
  if r1.samples_per_file ≤ r1.buffer_sample_count then r1.write_current_buffer else r1

/-- Feeding a sequence of chunks through `process_chunk`, in order. -/
def RollingAudioRecorder.feed (r : RollingAudioRecorder) (chunks : List Chunk) :
    RollingAudioRecorder :=
  chunks.foldl RollingAudioRecorder.process_chunk r

/-- The invariant of claim C10: the running sample count matches the
buffer contents, and the file index stays below `num_files`. -/
def RollingAudioRecorder.Inv (r : RollingAudioRecorder) : Prop :=
  r.buffer_sample_count = r.audio_buffer.flatten.length ∧
  r.current_file_index < r.num_files

/-- The inductive state predicate for the ring-rotation proof: counts
match, the accumulation stays strictly below one file, every written file
is exactly one file long, and the indices written so far are
`0 % n, 1 % n, ...` with the next index following on. -/
def RollingAudioRecorder.Good (r : RollingAudioRecorder) : Prop :=
  r.buffer_sample_count = r.audio_buffer.flatten.length ∧
  r.buffer_sample_count < r.samples_per_file ∧
  (∀ f ∈ r.files_written, f.2.length = r.samples_per_file) ∧
  r.files_written.map Prod.fst =
    (List.range r.files_written.length).map (fun i => i % r.num_files) ∧
  r.current_file_index = r.files_written.length % r.num_files

/-- All samples the recorder has accepted, in order: what was written to
files followed by what is still buffered. -/
def RollingAudioRecorder.contentOf (r : RollingAudioRecorder) : List Sample :=
  (r.files_written.map Prod.snd).flatten ++ r.audio_buffer.flatten

/-! ### Model selection (src/main.py lines 75-89 and 132-146) -/

/-- Python truthiness of an optional string: `None` and `""` are falsy. -/
def truthy : Option String → Bool
  | none => false
  | some s => !(s == "")

structure DetectorConfig where
  custom_model_path : Option String
  wake_word_models : Option (List String)
deriving Repr, DecidableEq

/-- The model-selection part of `WakeWordDetector.__init__` (lines 75-89).
`getenv` is the process environment (`os.getenv`); a `models_override`
that is `None` or the empty list is falsy in Python and falls back to the
`WAKE_WORD_MODELS` environment variable (default `"hey_jarvis"`). -/
def init_detector (models_override : Option (List String))
    (custom_model_path : Option String) (getenv : String → Option String) :
    DetectorConfig :=
  if truthy custom_model_path then
    { custom_model_path := custom_model_path, wake_word_models := none }
  else if truthy (getenv "CUSTOM_MODEL_PATH") then
    { custom_model_path := getenv "CUSTOM_MODEL_PATH", wake_word_models := none }
  else
    { custom_model_path := none
      wake_word_models := some (match models_override with
        | some (m :: ms) => m :: ms
        | _ => ((getenv "WAKE_WORD_MODELS").getD "hey_jarvis").splitOn ",") }

/-- `WakeWordDetector.initialize_model` (lines 132-146), abstracted to which
model assets are handed to `Model(...)`: `none` is the startup failure
(missing custom model file), `some l` means the models `l` were loaded.
`file_exists` is the `os.path.exists` oracle. -/
def init_model (cfg : DetectorConfig) (file_exists : String → Bool) :
    Option (List String) :=
  match cfg.custom_model_path with
  | some p => if file_exists p then some [p] else none
  | none => cfg.wake_word_models

/-! ### start_recording (src/main.py lines 215-219) -/

/-- The capture-thread state: the `recording` event, whether
`recording_thread` exists and `is_alive()`, and a ghost count of
`Thread(...).start()` calls made so far. -/
structure RecThreads where
  recording_set : Bool
  thread_alive : Bool
  spawn_count : Nat
deriving Repr, DecidableEq

/-- State at `__init__` (lines 108-109): event cleared, no thread yet. -/
def RecThreads.mk_init : RecThreads :=
  { recording_set := false, thread_alive := false, spawn_count := 0 }

/-- `WakeWordDetector.start_recording` (lines 215-219): spawn a worker only
when no live thread exists. -/
def RecThreads.start_recording (s : RecThreads) : RecThreads :=
  if !s.thread_alive then
    { recording_set := true, thread_alive := true, spawn_count := s.spawn_count + 1 }
  else s

/-! ### Queue operations (src/main.py lines 203-213, 240, 259-261) -/

/-- `Queue(maxsize=100)` (line 107). -/
def QUEUE_MAX : Nat := 100

/-- The atomic operations performed on `audio_queue`.  `put`, `get` and the
`queue.clear()` under `audio_queue.mutex` all hold the same lock, so any
concurrent history is a serialization of these. -/
inductive QOp where
  | push (f : Frame)
  | pop
  | clear
deriving Repr, DecidableEq

/-- One atomic queue operation: `put` appends if below capacity (a `put`
that times out on a full queue loses the frame — the worker's
`except: pass`), `get` removes the front, `clear` empties the queue.
Returns the new contents and the frame a `get` obtained. -/
def applyQOp (q : List Frame) : QOp → List Frame × Option Frame
  | QOp.push f => if q.length < QUEUE_MAX then (q ++ [f], none) else (q, none)
  | QOp.pop =>
      match q with
      | [] => ([], none)
      | f :: rest => (rest, some f)
  | QOp.clear => ([], none)

/-- Run a serialized history of queue operations; returns the final
contents and the frames the pops obtained, in order. -/
def runQOps (q : List Frame) : List QOp → List Frame × List Frame
  | [] => (q, [])
  | op :: ops =>
      let step := applyQOp q op
      let rest := runQOps step.1 ops
      (rest.1, step.2.toList ++ rest.2)

/-! ### The consumer loop and its event trace (src/main.py lines 192-270) -/

/-- Observable events of the pipeline, in program order:
`scored f p` — `model.predict` returned `p` for frame `f` (line 250);
`detected l s` — the detection branch was entered for label `l` (line 255);
`stopCapture` — `stop_recording()` (line 257);
`clearQueue` — the queue clear under the mutex (lines 260-261);
`reset` — `model.reset()` (line 263);
`action ok` — `play_video()` ran, `ok` records whether mpv succeeded
(lines 192-201); `startCapture` — `start_recording()` (line 267). -/
inductive Event where
  | scored (f : Frame) (p : Prediction)
  | detected (l : Label) (s : Score)
  | stopCapture
  | clearQueue
  | reset
  | action (ok : Bool)
  | startCapture
deriving Repr, DecidableEq

/-- The labels whose score strictly exceeds the threshold, in dict
iteration order — the entries for which `if score > self.threshold`
(line 254) is taken. -/
def exceeding (th : Score) (p : Prediction) : List (Label × Score) :=
  p.filter (fun ls => th < ls.2)

/-- `WakeWordDetector.play_video` (lines 192-201): every exception is
caught inside, so it always returns; `ok` is whether playback succeeded. -/
def play_video (ok : Bool) : List Event :=
  [Event.action ok]

/-- The body of the `if score > self.threshold` branch (lines 255-267),
for one exceeding label: print detection, stop capture, clear the queue,
reset the model, play the video, restart capture. -/
def detectionEvents (act : Label × Score → Bool) (ls : Label × Score) : List Event :=
  Event.detected ls.1 ls.2 :: Event.stopCapture :: Event.clearQueue ::
    Event.reset :: play_video (act ls) ++ [Event.startCapture]

/-- Events emitted while handling one dequeued frame (lines 250-267): the
frame is scored, then the `for model_name, score in prediction.items()`
loop runs the detection branch for every exceeding label in order. -/
def handleFrame (act : Label × Score → Bool) (th : Score) (f : Frame)
    (p : Prediction) : List Event :=
  Event.scored f p :: (exceeding th p).flatMap (detectionEvents act)

/-- The label of the first detection event in a trace — the label the
program selects and announces first. -/
def firstDetectedLabel (evs : List Event) : Option Label :=
  evs.findSome? (fun e =>
    match e with
    | Event.detected l _ => some l
    | _ => none)

/-- Whether an event is a detection firing. -/
def isDetected : Event → Bool
  | Event.detected _ _ => true
  | _ => false

/-- Number of detection firings in a trace. -/
def countDetected (evs : List Event) : Nat :=
  (evs.filter isDetected).length

/-- Erase the recorded action outcome, for comparing traces up to the
success or failure of `mpv`. -/
def eraseActPayload : Event → Event
  | Event.action _ => Event.action true
  | e => e

/-- Joint state of the producer and consumer: `pending` is the audio the
microphone will deliver to `stream.read`, `queue` is `audio_queue`, and
`capturing` says the `recording` event is set with a live worker. -/
structure SysState where
  pending : List Frame
  queue : List Frame
  capturing : Bool
deriving Repr, DecidableEq

/-- Scheduler choices: one producer iteration or one consumer iteration. -/
inductive SchedStep where
  | produce
  | consume
deriving Repr, DecidableEq

/-- One iteration of `_recording_worker` (lines 203-213): if the
`recording` event is set, read a frame and `put` it; on a full queue the
`put` times out and the exception is swallowed (frame lost). -/
def produceStep (s : SysState) : SysState :=
  if s.capturing then
    match s.pending with
    | [] => s
    | f :: ps =>
        if s.queue.length < QUEUE_MAX then
          { s with pending := ps, queue := s.queue ++ [f] }
        else
          { s with pending := ps }
  else s

/-- One iteration of the `while True` consumer loop (lines 236-270).
An empty queue raises `Empty`, which the inner `try` catches (`continue`).
`predict` raising any other exception is NOT caught by the inner
`except Empty` and escapes the loop: that is the `Sum.inr` outcome.
Otherwise the frame is handled; if any label fired, capture was stopped,
the queue cleared, and capture restarted, so afterwards the queue is
empty and `capturing` is true. -/
def consumeStep (predict : Frame → Except String Prediction)
    (act : Label × Score → Bool) (th : Score) (s : SysState) :
    (SysState × List Event) ⊕ String :=
  match s.queue with
  | [] => Sum.inl (s, [])
  | f :: rest =>
      match predict f with
      | Except.error e => Sum.inr e
      | Except.ok p =>
          if (exceeding th p).isEmpty then
            Sum.inl ({ s with queue := rest }, handleFrame act th f p)
          else
            Sum.inl ({ s with queue := [], capturing := true }, handleFrame act th f p)

/-- Run the two threads under a schedule, collecting the consumer's event
trace; a `predict` exception ends the run with `some` error (the loop
terminates through the `finally`). -/
def runSched (predict : Frame → Except String Prediction)
    (act : Label × Score → Bool) (th : Score) :
    SysState → List SchedStep → List Event × Option String
  | _, [] => ([], none)
  | s, SchedStep.produce :: sch => runSched predict act th (produceStep s) sch
  | s, SchedStep.consume :: sch =>
      match consumeStep predict act th s with
      | Sum.inl (s', evs) =>
          let rest := runSched predict act th s' sch
          (evs ++ rest.1, rest.2)
      | Sum.inr e => ([], some e)

/-- The FIRED handling discipline of claim C2, as a trace property: every
detection event is immediately followed, in this order, by stop-capture,
queue-clear, model-reset, the (blocking) video action, and
restart-capture — all before anything else happens. -/
def DetectBlocked (tr : List Event) : Prop :=
  ∀ i l s, tr[i]? = some (Event.detected l s) →
    tr[i+1]? = some Event.stopCapture ∧
    tr[i+2]? = some Event.clearQueue ∧
    tr[i+3]? = some Event.reset ∧
    (∃ b, tr[i+4]? = some (Event.action b)) ∧
    tr[i+5]? = some Event.startCapture

/-! ### Concrete scenario inputs -/

/-- The spec's single-model scenario: frames `[1]`,`[2]`,`[3]`,`[4]` score
0.2, 0.6, 0.9, 0.1 for model "alpha". -/
def predictScenario : Frame → Except String Prediction
  | [1] => Except.ok [("alpha", mkRat 1 5)]
  | [2] => Except.ok [("alpha", mkRat 3 5)]
  | [3] => Except.ok [("alpha", mkRat 9 10)]
  | [4] => Except.ok [("alpha", mkRat 1 10)]
  | _ => Except.ok [("alpha", mkRat 0 1)]

/-- A model whose scoring raises an exception on frame `[1]`. -/
def predictErr : Frame → Except String Prediction
  | [1] => Except.error "scoring failed"
  | _ => Except.ok [("alpha", mkRat 0 1)]

/-- A two-frame scenario: frame `[1]` fires, frame `[2]` does not. -/
def predictFire : Frame → Except String Prediction
  | [1] => Except.ok [("alpha", mkRat 7 10)]
  | _ => Except.ok [("alpha", mkRat 1 10)]

/-- Initial system state with audio `frames` still to be captured. -/
def initSys (frames : List Frame) : SysState :=
  { pending := frames, queue := [], capturing := true }

/-! ## Theorems -/

/-- Claim C10: across construction and every `process_chunk` call,
`buffer_sample_count` equals the total number of samples held in
`audio_buffer` and `current_file_index` stays in `[0, num_files)`;
moreover `_write_current_buffer` on an empty accumulation buffer is a
no-op. -/
theorem C10_recorder_invariants :
    (∀ nf dur rate, 0 < nf → (RollingAudioRecorder.mk_init nf dur rate).Inv) ∧
    (∀ (r : RollingAudioRecorder) (c : Chunk), r.Inv → (r.process_chunk c).Inv) ∧
    (∀ r : RollingAudioRecorder, r.audio_buffer = [] → r.write_current_buffer = r) := by
  refine ⟨?_, ?_, ?_⟩
  · intro nf dur rate hnf
    exact ⟨rfl, hnf⟩
  · intro r c h
    obtain ⟨h1, h2⟩ := h
    unfold RollingAudioRecorder.process_chunk
    simp only
    split
    · unfold RollingAudioRecorder.write_current_buffer
      simp only
      split
      · next hemp => simp at hemp
      · split
        · refine ⟨by simp, ?_⟩
          exact Nat.mod_lt _ (Nat.lt_of_le_of_lt (Nat.zero_le _) h2)
        · refine ⟨by simp, ?_⟩
          exact Nat.mod_lt _ (Nat.lt_of_le_of_lt (Nat.zero_le _) h2)
    · refine ⟨?_, h2⟩
      simp [h1]
  · intro r h
    unfold RollingAudioRecorder.write_current_buffer
    simp [h]

/-- Witness for C10 at a concrete recorder state. -/
theorem C10_recorder_invariants_witness :
    (RollingAudioRecorder.mk_init 10 5 16000).Inv ∧
    ((RollingAudioRecorder.mk_init 10 5 16000).process_chunk [1, 2, 3]).Inv := by
  have h0 := C10_recorder_invariants.1 10 5 16000 (by decide)
  exact ⟨h0, C10_recorder_invariants.2.1 _ [1, 2, 3] h0⟩

theorem mod_succ_of_mod (a n : Nat) : (a % n + 1) % n = (a + 1) % n := by
  rw [Nat.add_mod a 1 n, Nat.add_mod (a % n) 1 n, Nat.mod_mod]

theorem good_process_chunk (r : RollingAudioRecorder) (c : Chunk)
    (hg : r.Good) (hc : c.length ≤ r.samples_per_file) :
    (r.process_chunk c).Good ∧
    (r.process_chunk c).contentOf = r.contentOf ++ c ∧
    (r.process_chunk c).samples_per_file = r.samples_per_file ∧
    (r.process_chunk c).num_files = r.num_files := by
  obtain ⟨h1, h2, h3, h4, h5⟩ := hg
  have hspos : 0 < r.samples_per_file := Nat.lt_of_le_of_lt (Nat.zero_le _) h2
  have hflat : (r.audio_buffer ++ [c]).flatten = r.audio_buffer.flatten ++ c := by
    simp
  have hlen : (r.audio_buffer ++ [c]).flatten.length
      = r.buffer_sample_count + c.length := by
    simp [h1]
  unfold RollingAudioRecorder.process_chunk RollingAudioRecorder.write_current_buffer
  simp only [List.append_eq_nil, List.cons_ne_nil, and_false, if_false, hflat]
  have hX : (r.audio_buffer.flatten ++ c).length = r.buffer_sample_count + c.length := by
    simp [h1]
  split_ifs with hle hlt
  · -- a write fires and a remainder is carried over
    have hsle : r.samples_per_file ≤ (r.audio_buffer.flatten ++ c).length := le_of_lt hlt
    refine ⟨⟨by simp, ?_, ?_, ?_, ?_⟩, ?_, rfl, rfl⟩
    · simp only [List.length_drop]
      omega
    · intro f hf
      rcases List.mem_append.1 hf with hf | hf
      · exact h3 f hf
      · simp only [List.mem_singleton] at hf
        subst hf
        rw [List.length_take]
        exact Nat.min_eq_left hsle
    · simp only [List.map_append, List.length_append, List.map_cons, List.map_nil,
        List.length_cons, List.length_nil]
      rw [h4, h5, List.range_succ, List.map_append]
      simp
    · simp only [List.length_append, List.length_cons, List.length_nil]
      rw [h5, mod_succ_of_mod]
    · unfold RollingAudioRecorder.contentOf
      simp only [List.map_append, List.map_cons, List.map_nil, List.flatten_append,
        List.flatten_cons, List.flatten_nil, List.append_nil]
      rw [List.append_assoc, List.take_append_drop, List.append_assoc]
  · -- a write fires and consumes the buffer exactly
    have hsle : r.samples_per_file ≤ (r.audio_buffer.flatten ++ c).length := by omega
    have hXeq : (r.audio_buffer.flatten ++ c).length = r.samples_per_file := by omega
    refine ⟨⟨by simp, hspos, ?_, ?_, ?_⟩, ?_, rfl, rfl⟩
    · intro f hf
      rcases List.mem_append.1 hf with hf | hf
      · exact h3 f hf
      · simp only [List.mem_singleton] at hf
        subst hf
        rw [List.length_take]
        exact Nat.min_eq_left hsle
    · simp only [List.map_append, List.length_append, List.map_cons, List.map_nil,
        List.length_cons, List.length_nil]
      rw [h4, h5, List.range_succ, List.map_append]
      simp
    · simp only [List.length_append, List.length_cons, List.length_nil]
      rw [h5, mod_succ_of_mod]
    · unfold RollingAudioRecorder.contentOf
      have htake : (r.audio_buffer.flatten ++ c).take r.samples_per_file
          = r.audio_buffer.flatten ++ c := List.take_of_length_le (le_of_eq hXeq)
      simp only [List.map_append, List.map_cons, List.map_nil, List.flatten_append,
        List.flatten_cons, List.flatten_nil, List.append_nil, htake]
      rw [List.append_assoc]
  · -- the accumulated count stays below one file: no write
    refine ⟨⟨by simp [h1],
      by show r.buffer_sample_count + c.length < r.samples_per_file; omega,
      h3, h4, h5⟩, ?_, rfl, rfl⟩
    unfold RollingAudioRecorder.contentOf
    simp [List.append_assoc]

theorem good_feed (chunks : List Chunk) (r : RollingAudioRecorder)
    (hg : r.Good) (hc : ∀ c ∈ chunks, c.length ≤ r.samples_per_file) :
    (r.feed chunks).Good ∧
    (r.feed chunks).contentOf = r.contentOf ++ chunks.flatten ∧
    (r.feed chunks).samples_per_file = r.samples_per_file ∧
    (r.feed chunks).num_files = r.num_files := by
  induction chunks generalizing r with
  | nil =>
      exact ⟨hg, by simp [RollingAudioRecorder.feed], rfl, rfl⟩
  | cons c cs ih =>
      have hstep := good_process_chunk r c hg (hc c (List.mem_cons_self c cs))
      have hrest := ih (r.process_chunk c) hstep.1 (by
        intro c' hc'
        rw [hstep.2.2.1]
        exact hc c' (List.mem_cons_of_mem _ hc'))
      have hfeed : r.feed (c :: cs) = (r.process_chunk c).feed cs := rfl
      refine ⟨by rw [hfeed]; exact hrest.1, ?_, ?_, ?_⟩
      · rw [hfeed, hrest.2.1, hstep.2.1]
        simp [List.append_assoc]
      · rw [hfeed, hrest.2.2.1, hstep.2.2.1]
      · rw [hfeed, hrest.2.2.2, hstep.2.2.2]

theorem flatten_map_snd_length (l : List (Nat × List Sample)) (s : Nat)
    (h : ∀ f ∈ l, f.2.length = s) :
    ((l.map Prod.snd).flatten).length = l.length * s := by
  induction l with
  | nil => simp
  | cons x xs ih =>
      simp only [List.map_cons, List.flatten_cons, List.length_append, List.length_cons]
      rw [h x (List.mem_cons_self x xs), ih (fun f hf => h f (List.mem_cons_of_mem _ hf))]
      ring

/-- Claim C6 (amended): provided every chunk holds at most
`samples_per_file` samples — true of the program, which feeds 1280-sample
chunks against `samples_per_file = 80000` — feeding chunks totalling
exactly `k × samples_per_file` samples writes exactly `k` files, each of
exactly `samples_per_file` samples, at indices `0 % n, 1 % n, ...`
(advancing `(i + 1) mod num_files`), and the concatenation of the written
files is exactly the input: no sample dropped or duplicated at a
boundary, none left over. -/
theorem C6_ring_rotation (nf dur rate k : Nat) (chunks : List Chunk)
    (_hnf : 0 < nf) (hspf : 0 < rate * dur)
    (hc : ∀ c ∈ chunks, c.length ≤ rate * dur)
    (htot : chunks.flatten.length = k * (rate * dur)) :
    ((RollingAudioRecorder.mk_init nf dur rate).feed chunks).files_written.length = k ∧
    (∀ f ∈ ((RollingAudioRecorder.mk_init nf dur rate).feed chunks).files_written,
      f.2.length = rate * dur) ∧
    ((RollingAudioRecorder.mk_init nf dur rate).feed chunks).files_written.map Prod.fst
      = (List.range k).map (fun i => i % nf) ∧
    ((((RollingAudioRecorder.mk_init nf dur rate).feed chunks).files_written.map
        Prod.snd).flatten) = chunks.flatten ∧
    ((RollingAudioRecorder.mk_init nf dur rate).feed chunks).audio_buffer.flatten = [] := by
  have hg0 : (RollingAudioRecorder.mk_init nf dur rate).Good := by
    refine ⟨rfl, hspf, ?_, ?_, ?_⟩ <;> simp [RollingAudioRecorder.mk_init]
  have hmain := good_feed chunks (RollingAudioRecorder.mk_init nf dur rate) hg0 hc
  obtain ⟨⟨g1, g2, g3, g4, g5⟩, hcontent, hsp, hn⟩ := hmain
  set r := (RollingAudioRecorder.mk_init nf dur rate).feed chunks with hr
  have hsp' : r.samples_per_file = rate * dur := hsp
  have hn' : r.num_files = nf := hn
  have hcontent' : (r.files_written.map Prod.snd).flatten ++ r.audio_buffer.flatten
      = chunks.flatten := by
    have : r.contentOf = chunks.flatten := by
      rw [hcontent]
      simp [RollingAudioRecorder.contentOf, RollingAudioRecorder.mk_init]
    simpa [RollingAudioRecorder.contentOf] using this
  have hfl : ((r.files_written.map Prod.snd).flatten).length
      = r.files_written.length * (rate * dur) :=
    flatten_map_snd_length _ _ (fun f hf => by rw [g3 f hf, hsp'])
  have hlen : r.files_written.length * (rate * dur) + r.audio_buffer.flatten.length
      = k * (rate * dur) := by
    have := congrArg List.length hcontent'
    simpa [hfl, htot] using this
  have hb : r.audio_buffer.flatten.length < rate * dur := by
    rw [← hsp', ← g1]
    rw [hsp'] at g2 ⊢
    omega
  have hnk : r.files_written.length = k := by
    rcases Nat.lt_trichotomy r.files_written.length k with h | h | h
    · exfalso
      have hmul : (r.files_written.length + 1) * (rate * dur) ≤ k * (rate * dur) :=
        Nat.mul_le_mul_right _ (Nat.succ_le_of_lt h)
      rw [Nat.succ_mul] at hmul
      omega
    · exact h
    · exfalso
      have hmul : (k + 1) * (rate * dur) ≤ r.files_written.length * (rate * dur) :=
        Nat.mul_le_mul_right _ (Nat.succ_le_of_lt h)
      rw [Nat.succ_mul] at hmul
      omega
  have hb0 : r.audio_buffer.flatten.length = 0 := by
    rw [hnk] at hlen
    omega
  have hbnil : r.audio_buffer.flatten = [] := List.eq_nil_of_length_eq_zero hb0
  refine ⟨hnk, ?_, ?_, ?_, hbnil⟩
  · intro f hf
    rw [g3 f hf, hsp']
  · rw [g4, hnk, hn']
  · rw [← hcontent', hbnil, List.append_nil]

/-- Counterexample to claim C6 as stated: a single chunk of
`2 × samples_per_file` samples (here `samples_per_file = 2`) totals
exactly `k × samples_per_file` for `k = 2`, yet only one file is written,
because `process_chunk` checks the threshold once per chunk (`if`, not
`while`). -/
theorem C6_ring_rotation_cex :
    ([[(1 : Int), 2, 3, 4]] : List Chunk).flatten.length = 2 * (2 * 1) ∧
    ((RollingAudioRecorder.mk_init 10 1 2).feed [[1, 2, 3, 4]]).files_written.length
      = 1 := by
  decide

/-- Witness for C6 (amended) at a concrete run: three 2-sample chunks,
`samples_per_file = 2`, `num_files = 2`, giving 3 files at indices
0, 1, 0. -/
theorem C6_ring_rotation_witness :
    (0 < 2 ∧ 0 < 2 * 1 ∧ (∀ c ∈ ([[(1 : Int), 2], [3, 4], [5, 6]] : List Chunk),
        c.length ≤ 2 * 1) ∧
      ([[(1 : Int), 2], [3, 4], [5, 6]] : List Chunk).flatten.length = 3 * (2 * 1)) ∧
    ((RollingAudioRecorder.mk_init 2 1 2).feed
        [[(1 : Int), 2], [3, 4], [5, 6]]).files_written.length = 3 ∧
    (∀ f ∈ ((RollingAudioRecorder.mk_init 2 1 2).feed
        [[(1 : Int), 2], [3, 4], [5, 6]]).files_written, f.2.length = 2 * 1) ∧
    ((RollingAudioRecorder.mk_init 2 1 2).feed
        [[(1 : Int), 2], [3, 4], [5, 6]]).files_written.map Prod.fst
      = (List.range 3).map (fun i => i % 2) ∧
    ((((RollingAudioRecorder.mk_init 2 1 2).feed
        [[(1 : Int), 2], [3, 4], [5, 6]]).files_written.map Prod.snd).flatten)
      = ([[(1 : Int), 2], [3, 4], [5, 6]] : List Chunk).flatten ∧
    ((RollingAudioRecorder.mk_init 2 1 2).feed
        [[(1 : Int), 2], [3, 4], [5, 6]]).audio_buffer.flatten = [] :=
  ⟨⟨by decide, by decide, by decide, by decide⟩,
    C6_ring_rotation 2 1 2 3 [[1, 2], [3, 4], [5, 6]]
      (by decide) (by decide) (by decide) (by decide)⟩

/-- Claim C7: calling `start_recording` while a capture thread is already
alive is a no-op — two calls in a row equal one call — and from the
initial state (no thread) exactly one worker thread has been spawned and
is alive afterwards. -/
theorem C7_start_recording_idempotent (s : RecThreads) :
    s.start_recording.start_recording = s.start_recording ∧
    (s.thread_alive = false → s.spawn_count = 0 →
      s.start_recording.start_recording.thread_alive = true ∧
      s.start_recording.start_recording.spawn_count = 1) := by
  constructor
  · cases h : s.thread_alive <;> simp [RecThreads.start_recording, h]
  · intro ha hs
    simp [RecThreads.start_recording, ha, hs]

/-- Witness for C7 from the `__init__` state. -/
theorem C7_start_recording_idempotent_witness :
    RecThreads.mk_init.start_recording.start_recording
        = RecThreads.mk_init.start_recording ∧
    RecThreads.mk_init.start_recording.start_recording.thread_alive = true ∧
    RecThreads.mk_init.start_recording.start_recording.spawn_count = 1 :=
  ⟨(C7_start_recording_idempotent RecThreads.mk_init).1,
    (C7_start_recording_idempotent RecThreads.mk_init).2 rfl rfl⟩

/-- Claim C9: a custom model path — passed to the constructor or through
the `CUSTOM_MODEL_PATH` environment variable (nonempty, per Python
truthiness) — takes precedence: `wake_word_models` is set to `None` and
ignored, and only the custom model is handed to `Model(...)` (when its
file exists; a missing file is the fatal startup failure). -/
theorem C9_custom_model_precedence (mo : Option (List String))
    (cmp : Option String) (ge : String → Option String) (fe : String → Bool) :
    (∀ p, cmp = some p → p ≠ "" →
      (init_detector mo cmp ge).wake_word_models = none ∧
      (init_detector mo cmp ge).custom_model_path = some p ∧
      (fe p = true → init_model (init_detector mo cmp ge) fe = some [p])) ∧
    (∀ q, truthy cmp = false → ge "CUSTOM_MODEL_PATH" = some q → q ≠ "" →
      (init_detector mo cmp ge).wake_word_models = none ∧
      (init_detector mo cmp ge).custom_model_path = some q ∧
      (fe q = true → init_model (init_detector mo cmp ge) fe = some [q])) := by
  constructor
  · intro p hp hpne
    subst hp
    have htr : truthy (some p) = true := by
      simp [truthy, hpne]
    refine ⟨?_, ?_, ?_⟩
    · simp [init_detector, htr]
    · simp [init_detector, htr]
    · intro hfe
      simp [init_detector, htr, init_model, hfe]
  · intro q hcf hq hqne
    have htr : truthy (some q) = true := by
      simp [truthy, hqne]
    refine ⟨?_, ?_, ?_⟩
    · simp [init_detector, hcf, hq, htr]
    · simp [init_detector, hcf, hq, htr]
    · intro hfe
      simp [init_detector, hcf, hq, htr, init_model, hfe]

/-- Witness for C9 with a constructor-supplied custom path and a named
model list that gets overridden. -/
theorem C9_custom_model_precedence_witness :
    (init_detector (some ["hey_jarvis"]) (some "model.onnx")
        (fun _ => none)).wake_word_models = none ∧
    init_model (init_detector (some ["hey_jarvis"]) (some "model.onnx")
        (fun _ => none)) (fun _ => true) = some ["model.onnx"] := by
  have h := (C9_custom_model_precedence (some ["hey_jarvis"]) (some "model.onnx")
    (fun _ => none) (fun _ => true)).1 "model.onnx" rfl (by decide)
  exact ⟨h.1, h.2.2 rfl⟩

theorem runQOps_append (q : List Frame) (as bs : List QOp) :
    runQOps q (as ++ bs)
      = ((runQOps (runQOps q as).1 bs).1,
         (runQOps q as).2 ++ (runQOps (runQOps q as).1 bs).2) := by
  induction as generalizing q with
  | nil => simp [runQOps]
  | cons op ops ih => simp [runQOps, ih, List.append_assoc]

theorem mem_runQOps_popped (q : List Frame) (ops : List QOp) (f : Frame)
    (h : f ∈ (runQOps q ops).2) : f ∈ q ∨ QOp.push f ∈ ops := by
  induction ops generalizing q with
  | nil => simp [runQOps] at h
  | cons op ops ih =>
      have hstep : runQOps q (op :: ops)
          = ((runQOps (applyQOp q op).1 ops).1,
             (applyQOp q op).2.toList ++ (runQOps (applyQOp q op).1 ops).2) := rfl
      rw [hstep] at h
      rcases List.mem_append.1 h with h | h
      · cases op with
        | push g =>
            have hnone : (applyQOp q (QOp.push g)).2 = none := by
              by_cases hcap : q.length < QUEUE_MAX <;> simp [applyQOp, hcap]
            rw [hnone] at h
            simp at h
        | pop =>
            cases q with
            | nil => simp [applyQOp] at h
            | cons g rest =>
                simp only [applyQOp, Option.toList_some, List.mem_singleton] at h
                subst h
                exact Or.inl (List.mem_cons_self _ _)
        | clear => simp [applyQOp] at h
      · rcases ih (applyQOp q op).1 h with h' | h'
        · cases op with
          | push g =>
              have hq1 : (applyQOp q (QOp.push g)).1 = q ++ [g]
                  ∨ (applyQOp q (QOp.push g)).1 = q := by
                by_cases hcap : q.length < QUEUE_MAX
                · exact Or.inl (by simp [applyQOp, hcap])
                · exact Or.inr (by simp [applyQOp, hcap])
              rcases hq1 with he | he <;> rw [he] at h'
              · rcases List.mem_append.1 h' with h'' | h''
                · exact Or.inl h''
                · simp only [List.mem_singleton] at h''
                  subst h''
                  exact Or.inr (List.mem_cons_self _ _)
              · exact Or.inl h'
          | pop =>
              cases q with
              | nil => simp [applyQOp] at h'
              | cons g rest => exact Or.inl (List.mem_cons_of_mem _ h')
          | clear => simp [applyQOp] at h'
        · exact Or.inr (List.mem_cons_of_mem _ h')

/-- Claim C8: `put`, `get` and the mutex-held `clear` all acquire
`audio_queue.mutex`, so every concurrent history is a serialization in
which each operation lands entirely before or after the clear and no
partially-cleared queue is observable; in every such serialization, the
pops after the clear return only frames pushed after the clear — never a
frame enqueued before the clear's point in the history. -/
theorem C8_clear_atomic (q0 : List Frame) (pre post : List QOp) :
    (runQOps q0 (pre ++ QOp.clear :: post)).2
      = (runQOps q0 pre).2 ++ (runQOps [] post).2 ∧
    ∀ f, f ∈ (runQOps [] post).2 → QOp.push f ∈ post := by
  constructor
  · have h1 := runQOps_append q0 pre (QOp.clear :: post)
    have h2 : runQOps (runQOps q0 pre).1 (QOp.clear :: post) = runQOps [] post := by
      simp [runQOps, applyQOp]
    rw [h1, h2]
  · intro f hf
    rcases mem_runQOps_popped [] post f hf with h | h
    · simp at h
    · exact h

/-- Witness for C8: after a clear, the pop obtains the frame `[5]` pushed
after the clear. -/
theorem C8_clear_atomic_witness :
    ([(5 : Int)] ∈ (runQOps [] [QOp.push [5], QOp.pop]).2) ∧
    QOp.push [(5 : Int)] ∈ [QOp.push [5], QOp.pop] :=
  ⟨by decide,
    (C8_clear_atomic [[0]] [QOp.pop] [QOp.push [5], QOp.pop]).2 [5] (by decide)⟩

theorem exceeding_append_skip (th : Score) (pre rest : Prediction)
    (hpre : ∀ x ∈ pre, x.2 ≤ th) :
    exceeding th (pre ++ rest) = exceeding th rest := by
  unfold exceeding
  rw [List.filter_append]
  have hnil : pre.filter (fun ls => th < ls.2) = [] :=
    List.filter_eq_nil_iff.2 (fun a ha => by simpa using not_lt.2 (hpre a ha))
  rw [hnil, List.nil_append]

/-- Counterexample to claim C1 as stated: for scores alpha ↦ 0.7,
beta ↦ 0.8 (in the configured model list order) with threshold 0.5, the
`for model_name, score in prediction.items()` loop enters the detection
branch for alpha first — the first detection event announces alpha, not
the maximum-scoring beta. -/
theorem C1_max_label_cex :
    firstDetectedLabel (handleFrame (fun _ => true) (mkRat 1 2) []
      [("alpha", mkRat 7 10), ("beta", mkRat 8 10)]) = some "alpha" ∧
    ("alpha" : Label) ≠ "beta" := by
  decide

/-- Claim C1 (amended): when multiple labels exceed the threshold in the
same frame, the label announced by the first detection event is the first
label in the prediction's iteration order (the configured model list
order) whose score strictly exceeds the threshold — not the
maximum-scoring one; each further exceeding label then triggers its own
detection handling in the same frame.  In particular for
alpha ↦ 0.7, beta ↦ 0.8 with threshold 0.5, alpha is selected first. -/
theorem C1_first_exceeding_selected (act : Label × Score → Bool) (th : Score)
    (f : Frame) (pre post : Prediction) (l : Label) (s : Score)
    (hpre : ∀ x ∈ pre, x.2 ≤ th) (hs : th < s) :
    firstDetectedLabel (handleFrame act th f (pre ++ (l, s) :: post)) = some l := by
  have hexc : exceeding th (pre ++ (l, s) :: post) = (l, s) :: exceeding th post := by
    rw [exceeding_append_skip th pre _ hpre]
    unfold exceeding
    rw [List.filter_cons_of_pos (by simpa using hs)]
  unfold firstDetectedLabel handleFrame
  rw [hexc]
  simp [detectionEvents, List.findSome?_cons]

/-- Witness for C1 (amended) at the spec's two-model scenario. -/
theorem C1_first_exceeding_selected_witness :
    ((∀ x ∈ ([] : Prediction), x.2 ≤ mkRat 1 2) ∧ mkRat 1 2 < mkRat 7 10) ∧
    firstDetectedLabel (handleFrame (fun _ => true) (mkRat 1 2) []
      ([] ++ ("alpha", mkRat 7 10) :: [("beta", mkRat 8 10)])) = some "alpha" :=
  ⟨⟨by decide, by decide⟩,
    C1_first_exceeding_selected (fun _ => true) (mkRat 1 2) [] [] [("beta", mkRat 8 10)]
      "alpha" (mkRat 7 10) (by decide) (by decide)⟩

theorem detectBlocked_nil : DetectBlocked [] := by
  intro i l s h
  simp at h

theorem detectBlocked_append {xs ys : List Event}
    (hx : DetectBlocked xs) (hy : DetectBlocked ys) : DetectBlocked (xs ++ ys) := by
  intro i l s h
  by_cases hi : i < xs.length
  · have hx' : xs[i]? = some (Event.detected l s) := by
      rwa [List.getElem?_append_left hi] at h
    obtain ⟨h1, h2, h3, ⟨b, h4⟩, h5⟩ := hx i l s hx'
    have hlen : i + 5 < xs.length := by
      rcases List.getElem?_eq_some.1 h5 with ⟨h', _⟩
      exact h'
    refine ⟨?_, ?_, ?_, ⟨b, ?_⟩, ?_⟩ <;>
      rw [List.getElem?_append_left (by omega)] <;> assumption
  · push_neg at hi
    have hy' : ys[i - xs.length]? = some (Event.detected l s) := by
      rwa [List.getElem?_append_right hi] at h
    obtain ⟨h1, h2, h3, ⟨b, h4⟩, h5⟩ := hy (i - xs.length) l s hy'
    refine ⟨?_, ?_, ?_, ⟨b, ?_⟩, ?_⟩ <;>
      rw [List.getElem?_append_right (by omega)]
    · rw [show i + 1 - xs.length = i - xs.length + 1 from by omega]
      exact h1
    · rw [show i + 2 - xs.length = i - xs.length + 2 from by omega]
      exact h2
    · rw [show i + 3 - xs.length = i - xs.length + 3 from by omega]
      exact h3
    · rw [show i + 4 - xs.length = i - xs.length + 4 from by omega]
      exact h4
    · rw [show i + 5 - xs.length = i - xs.length + 5 from by omega]
      exact h5

theorem detectBlocked_detectionEvents (act : Label × Score → Bool)
    (ls : Label × Score) : DetectBlocked (detectionEvents act ls) := by
  intro i l s h
  rcases i with _ | _ | _ | _ | _ | _ | i
  · exact ⟨rfl, rfl, rfl, ⟨act ls, rfl⟩, rfl⟩
  · simp [detectionEvents, play_video] at h
  · simp [detectionEvents, play_video] at h
  · simp [detectionEvents, play_video] at h
  · simp [detectionEvents, play_video] at h
  · simp [detectionEvents, play_video] at h
  · simp [detectionEvents, play_video] at h

theorem detectBlocked_flatMap (act : Label × Score → Bool)
    (l : List (Label × Score)) :
    DetectBlocked (l.flatMap (detectionEvents act)) := by
  induction l with
  | nil => exact detectBlocked_nil
  | cons x xs ih =>
      rw [List.flatMap_cons]
      exact detectBlocked_append (detectBlocked_detectionEvents act x) ih

theorem detectBlocked_handleFrame (act : Label × Score → Bool) (th : Score)
    (f : Frame) (p : Prediction) : DetectBlocked (handleFrame act th f p) := by
  unfold handleFrame
  rw [show Event.scored f p :: (exceeding th p).flatMap (detectionEvents act)
      = [Event.scored f p] ++ (exceeding th p).flatMap (detectionEvents act) from rfl]
  refine detectBlocked_append ?_ (detectBlocked_flatMap act _)
  intro i l s h
  rcases i with _ | i <;> simp at h

theorem consumeStep_events (predict : Frame → Except String Prediction)
    (act : Label × Score → Bool) (th : Score) (s s' : SysState) (evs : List Event)
    (h : consumeStep predict act th s = Sum.inl (s', evs)) :
    evs = [] ∨ ∃ f p, predict f = Except.ok p ∧ evs = handleFrame act th f p := by
  unfold consumeStep at h
  split at h
  · injection h with h'
    exact Or.inl (congrArg Prod.snd h').symm
  · rename_i f rest hq
    split at h
    · cases h
    · rename_i p hp
      split at h <;>
      · injection h with h'
        exact Or.inr ⟨f, p, hp, (congrArg Prod.snd h').symm⟩

theorem detectBlocked_runSched (predict : Frame → Except String Prediction)
    (act : Label × Score → Bool) (th : Score) (s : SysState)
    (sch : List SchedStep) : DetectBlocked (runSched predict act th s sch).1 := by
  induction sch generalizing s with
  | nil => exact detectBlocked_nil
  | cons a sch ih =>
      cases a with
      | produce => exact ih (produceStep s)
      | consume =>
          rcases hc : consumeStep predict act th s with ⟨s', evs⟩ | e
          · have hrun : runSched predict act th s (SchedStep.consume :: sch)
                = (evs ++ (runSched predict act th s' sch).1,
                   (runSched predict act th s' sch).2) := by
              simp [runSched, hc]
            rw [hrun]
            have hevs : DetectBlocked evs := by
              rcases consumeStep_events predict act th s s' evs hc with h | ⟨f, p, _, hevs⟩
              · rw [h]; exact detectBlocked_nil
              · rw [hevs]; exact detectBlocked_handleFrame act th f p
            exact detectBlocked_append hevs (ih s')
          · have hrun : runSched predict act th s (SchedStep.consume :: sch)
                = ([], some e) := by
              simp [runSched, hc]
            rw [hrun]
            exact detectBlocked_nil

/-- Claim C2: whenever a detection fires, the trace of the run shows — in
strict order, before anything else — stop-capture, queue-clear,
model-reset, then the blocking action and restart of capture; and any
frame scored later in the run is scored strictly after the reset, for
every model, threshold, initial state and interleaving of producer and
consumer: no path back to scoring skips the flush-then-reset sequence. -/
theorem C2_fired_ordering (predict : Frame → Except String Prediction)
    (act : Label × Score → Bool) (th : Score) (s0 : SysState)
    (sch : List SchedStep) (i : Nat) (l : Label) (s : Score)
    (h : (runSched predict act th s0 sch).1[i]? = some (Event.detected l s)) :
    (runSched predict act th s0 sch).1[i+1]? = some Event.stopCapture ∧
    (runSched predict act th s0 sch).1[i+2]? = some Event.clearQueue ∧
    (runSched predict act th s0 sch).1[i+3]? = some Event.reset ∧
    (∃ b, (runSched predict act th s0 sch).1[i+4]? = some (Event.action b)) ∧
    (runSched predict act th s0 sch).1[i+5]? = some Event.startCapture ∧
    ∀ j f p, (runSched predict act th s0 sch).1[j]? = some (Event.scored f p) →
      i < j → i + 3 < j := by
  obtain ⟨h1, h2, h3, h4, h5⟩ := detectBlocked_runSched predict act th s0 sch i l s h
  refine ⟨h1, h2, h3, h4, h5, ?_⟩
  intro j f p hj hij
  by_contra hle
  push_neg at hle
  have hcase : j = i + 1 ∨ j = i + 2 ∨ j = i + 3 := by omega
  rcases hcase with rfl | rfl | rfl
  · rw [h1] at hj
    simp at hj
  · rw [h2] at hj
    simp at hj
  · rw [h3] at hj
    simp at hj

/-- Witness for C2 on a concrete two-frame run: the detection at trace
index 1 is followed by stop-capture at index 2 and reset at index 4, and
the frame scored afterwards (index 7) comes after the reset. -/
theorem C2_fired_ordering_witness :
    ((runSched predictFire (fun _ => true) (mkRat 1 2) (initSys [[1], [2]])
        [SchedStep.produce, SchedStep.consume, SchedStep.produce,
          SchedStep.consume]).1[1]?
      = some (Event.detected "alpha" (mkRat 7 10))) ∧
    ((runSched predictFire (fun _ => true) (mkRat 1 2) (initSys [[1], [2]])
        [SchedStep.produce, SchedStep.consume, SchedStep.produce,
          SchedStep.consume]).1[2]? = some Event.stopCapture) ∧
    ((runSched predictFire (fun _ => true) (mkRat 1 2) (initSys [[1], [2]])
        [SchedStep.produce, SchedStep.consume, SchedStep.produce,
          SchedStep.consume]).1[4]? = some Event.reset) :=
  ⟨by decide,
    (C2_fired_ordering predictFire (fun _ => true) (mkRat 1 2) (initSys [[1], [2]])
      [SchedStep.produce, SchedStep.consume, SchedStep.produce, SchedStep.consume]
      1 "alpha" (mkRat 7 10) (by decide)).1,
    (C2_fired_ordering predictFire (fun _ => true) (mkRat 1 2) (initSys [[1], [2]])
      [SchedStep.produce, SchedStep.consume, SchedStep.produce, SchedStep.consume]
      1 "alpha" (mkRat 7 10) (by decide)).2.2.1⟩

/-- Claim C3: a detection fires on a scored frame iff some label's score
strictly exceeds the threshold (a score exactly equal to the threshold
does not fire, since the source tests `score > self.threshold`); and in
the spec's scenario — threshold 0.5, single model "alpha", four
consecutively captured frames scoring 0.2, 0.6, 0.9, 0.1 — exactly one
detection fires, at the frame scoring 0.6: the detection flushes the
queued 0.9 and 0.1 frames, which are never scored. -/
theorem C3_strict_threshold_fire :
    (∀ (act : Label × Score → Bool) (th : Score) (f : Frame) (p : Prediction),
      (∃ l s, Event.detected l s ∈ handleFrame act th f p) ↔ ∃ ls ∈ p, th < ls.2) ∧
    (runSched predictScenario (fun _ => true) (mkRat 1 2)
        (initSys [[1], [2], [3], [4]])
        [SchedStep.produce, SchedStep.produce, SchedStep.produce, SchedStep.produce,
          SchedStep.consume, SchedStep.consume, SchedStep.consume,
          SchedStep.consume]).1
      = [Event.scored [1] [("alpha", mkRat 1 5)],
         Event.scored [2] [("alpha", mkRat 3 5)],
         Event.detected "alpha" (mkRat 3 5), Event.stopCapture, Event.clearQueue,
         Event.reset, Event.action true, Event.startCapture] ∧
    countDetected (runSched predictScenario (fun _ => true) (mkRat 1 2)
        (initSys [[1], [2], [3], [4]])
        [SchedStep.produce, SchedStep.produce, SchedStep.produce, SchedStep.produce,
          SchedStep.consume, SchedStep.consume, SchedStep.consume,
          SchedStep.consume]).1 = 1 := by
  refine ⟨?_, by decide, by decide⟩
  intro act th f p
  constructor
  · rintro ⟨l, s, hmem⟩
    unfold handleFrame exceeding at hmem
    rcases List.mem_cons.1 hmem with hh | hh
    · simp at hh
    · rcases List.mem_flatMap.1 hh with ⟨ls, hls, _⟩
      rcases List.mem_filter.1 hls with ⟨hmem', hdec⟩
      exact ⟨ls, hmem', by simpa using hdec⟩
  · rintro ⟨ls, hls, hth⟩
    refine ⟨ls.1, ls.2, ?_⟩
    unfold handleFrame exceeding
    refine List.mem_cons.2 (Or.inr ?_)
    refine List.mem_flatMap.2 ⟨ls, List.mem_filter.2 ⟨hls, by simpa using hth⟩, ?_⟩
    unfold detectionEvents
    exact List.mem_cons_self _ _

/-- Witness for C3: a 0.6 score fires at threshold 0.5, and a score
exactly equal to the threshold does not fire. -/
theorem C3_strict_threshold_fire_witness :
    (∃ l s, Event.detected l s ∈ handleFrame (fun _ => true) (mkRat 1 2) [2]
        [("alpha", mkRat 3 5)]) ∧
    ¬ (∃ l s, Event.detected l s ∈ handleFrame (fun _ => true) (mkRat 1 2) [9]
        [("alpha", mkRat 1 2)]) :=
  ⟨(C3_strict_threshold_fire.1 (fun _ => true) (mkRat 1 2) [2]
        [("alpha", mkRat 3 5)]).2 ⟨("alpha", mkRat 3 5), by decide, by decide⟩,
    fun hex => by
      rcases (C3_strict_threshold_fire.1 (fun _ => true) (mkRat 1 2) [9]
        [("alpha", mkRat 1 2)]).1 hex with ⟨ls, hls, hlt⟩
      simp only [List.mem_singleton] at hls
      subst hls
      exact absurd hlt (by decide)⟩

/-- Counterexample to claim C4 as stated: the inner `try` of the consumer
loop catches only `queue.Empty`, so a scoring error on frame `[1]` is not
caught and not logged as "no detection": it escapes the loop, which
terminates (through the `finally` cleanup) with the error — the queued
frame `[2]` is never scored, the loop does not continue. -/
theorem C4_scoring_error_cex :
    runSched predictErr (fun _ => true) (mkRat 1 2) (initSys [[1], [2]])
        [SchedStep.produce, SchedStep.produce, SchedStep.consume,
          SchedStep.consume]
      = ([], some "scoring failed") := by
  decide

/-- Claim C4 (amended): only the queue-empty timeout is caught by the
consumer loop's inner `try`; a Detector scoring error raised for a frame
propagates out of the `while` loop and terminates it (after the `finally`
cleanup) — the erroring frame produces no detection event and no
state-machine transition, and no subsequent frame is processed, whatever
the rest of the schedule would have been. -/
theorem C4_scoring_error_terminates (predict : Frame → Except String Prediction)
    (act : Label × Score → Bool) (th : Score) (s : SysState)
    (sch : List SchedStep) (f : Frame) (rest : List Frame) (e : String)
    (hq : s.queue = f :: rest) (he : predict f = Except.error e) :
    runSched predict act th s (SchedStep.consume :: sch) = ([], some e) := by
  have hc : consumeStep predict act th s = Sum.inr e := by
    unfold consumeStep
    rw [hq]
    simp [he]
  simp [runSched, hc]

/-- Witness for C4 (amended) at a concrete erroring frame. -/
theorem C4_scoring_error_terminates_witness :
    (({ pending := [], queue := [[1]], capturing := true } : SysState).queue
        = [1] :: [] ∧ predictErr [1] = Except.error "scoring failed") ∧
    runSched predictErr (fun _ => true) (mkRat 1 2)
        { pending := [], queue := [[1]], capturing := true }
        [SchedStep.consume, SchedStep.consume] = ([], some "scoring failed") :=
  ⟨⟨rfl, rfl⟩,
    C4_scoring_error_terminates predictErr (fun _ => true) (mkRat 1 2)
      { pending := [], queue := [[1]], capturing := true }
      [SchedStep.consume] [1] [] "scoring failed" rfl rfl⟩

theorem handleFrame_erase (act1 act2 : Label × Score → Bool) (th : Score)
    (f : Frame) (p : Prediction) :
    (handleFrame act1 th f p).map eraseActPayload
      = (handleFrame act2 th f p).map eraseActPayload := by
  unfold handleFrame
  simp only [List.map_cons]
  congr 1
  induction exceeding th p with
  | nil => rfl
  | cons x xs ih =>
      simp [List.flatMap_cons, List.map_append, ih, detectionEvents, play_video,
        eraseActPayload]

/-- Claim C5: the video action's success or failure never changes the
control flow — `play_video` catches every error internally, so for any
two action outcomes the runs are identical except for the recorded
outcome Boolean, and the loop restarts capture and resumes scoring; in
the concrete scenario, a detection whose action FAILS is still followed
by restart of capture and the scoring of the next frame. -/
theorem C5_action_failure_resumes :
    (∀ (predict : Frame → Except String Prediction)
        (act1 act2 : Label × Score → Bool) (th : Score) (s0 : SysState)
        (sch : List SchedStep),
      (runSched predict act1 th s0 sch).1.map eraseActPayload
          = (runSched predict act2 th s0 sch).1.map eraseActPayload ∧
      (runSched predict act1 th s0 sch).2 = (runSched predict act2 th s0 sch).2) ∧
    (runSched predictFire (fun _ => false) (mkRat 1 2) (initSys [[1], [2]])
        [SchedStep.produce, SchedStep.consume, SchedStep.produce,
          SchedStep.consume]).1
      = [Event.scored [1] [("alpha", mkRat 7 10)],
         Event.detected "alpha" (mkRat 7 10), Event.stopCapture, Event.clearQueue,
         Event.reset, Event.action false, Event.startCapture,
         Event.scored [2] [("alpha", mkRat 1 10)]] := by
  refine ⟨?_, by decide⟩
  intro predict act1 act2 th s0 sch
  induction sch generalizing s0 with
  | nil => exact ⟨rfl, rfl⟩
  | cons a sch ih =>
      cases a with
      | produce => exact ih (produceStep s0)
      | consume =>
          cases hq : s0.queue with
          | nil =>
              have e1 : consumeStep predict act1 th s0 = Sum.inl (s0, []) := by
                unfold consumeStep
                rw [hq]
              have e2 : consumeStep predict act2 th s0 = Sum.inl (s0, []) := by
                unfold consumeStep
                rw [hq]
              simp only [runSched, e1, e2]
              simpa using ih s0
          | cons f rest =>
              cases hp : predict f with
              | error e =>
                  have e1 : consumeStep predict act1 th s0 = Sum.inr e := by
                    unfold consumeStep
                    rw [hq]
                    simp [hp]
                  have e2 : consumeStep predict act2 th s0 = Sum.inr e := by
                    unfold consumeStep
                    rw [hq]
                    simp [hp]
                  simp [runSched, e1, e2]
              | ok p =>
                  by_cases hex : (exceeding th p).isEmpty = true
                  · have e1 : consumeStep predict act1 th s0
                        = Sum.inl ({ s0 with queue := rest },
                            handleFrame act1 th f p) := by
                      unfold consumeStep
                      rw [hq]
                      simp [hp, hex]
                    have e2 : consumeStep predict act2 th s0
                        = Sum.inl ({ s0 with queue := rest },
                            handleFrame act2 th f p) := by
                      unfold consumeStep
                      rw [hq]
                      simp [hp, hex]
                    simp only [runSched, e1, e2]
                    refine ⟨?_, (ih _).2⟩
                    simp only [List.map_append]
                    rw [handleFrame_erase act1 act2 th f p, (ih _).1]
                  · have e1 : consumeStep predict act1 th s0
                        = Sum.inl ({ s0 with queue := [], capturing := true },
                            handleFrame act1 th f p) := by
                      unfold consumeStep
                      rw [hq]
                      simp [hp, hex]
                    have e2 : consumeStep predict act2 th s0
                        = Sum.inl ({ s0 with queue := [], capturing := true },
                            handleFrame act2 th f p) := by
                      unfold consumeStep
                      rw [hq]
                      simp [hp, hex]
                    simp only [runSched, e1, e2]
                    refine ⟨?_, (ih _).2⟩
                    simp only [List.map_append]
                    rw [handleFrame_erase act1 act2 th f p, (ih _).1]
